import Mathlib

/-!
Verification of the `bloomen/transwarp` Conan recipe (`conanfile.py`).

The recipe is a fetch-extract-stage packaging step:

* `source()` downloads `{url}/archive/{version}.zip` to the local file
  `{version}.zip` with `verify=False`, extracts it into the working
  directory with `unzip`, and deletes the archive with `os.unlink`;
* `package()` copies every file matching `*.h` under the extracted
  subdirectory `{name}-{version}/src` into the package's `include`
  directory.

We model the working directory as an association list from paths to file
data, the remote host as a partial map from URLs to file data, and each
step as a function from a filesystem to a filesystem together with a
trace of effects (download / unzip / unlink / copy events), mirroring the
order in which `conanfile.py` performs them.
-/

/-- The data stored in a file: plain text, a zip archive holding a list of
`(relative path, text content)` entries, or bytes that are not a valid
archive. -/
inductive FileData where
  | text (s : String)
  | zip (entries : List (String × String))
  | corrupt
deriving DecidableEq, Repr

/-- A filesystem: an association list from paths to file data.  Lookup
takes the first entry with the given path, so earlier entries shadow
later ones. -/
abbrev FS := List (String × FileData)

/-- Read the file at path `p`, if present. -/
def fsGet (fs : FS) (p : String) : Option FileData :=
  (fs.find? (fun e => e.1 == p)).map (fun e => e.2)

/-- Write file data `d` at path `p`, overwriting any previous file there. -/
def fsSet (fs : FS) (p : String) (d : FileData) : FS :=
  (p, d) :: fs.filter (fun e => e.1 != p)

/-- Delete the file at path `p` (`os.unlink`). -/
def fsDel (fs : FS) (p : String) : FS :=
  fs.filter (fun e => e.1 != p)

/-- Does a file exist at path `p`? -/
def fsHas (fs : FS) (p : String) : Bool :=
  (fsGet fs p).isSome

/-- The observable effects the recipe performs, in order.  The `Bool` on
`download` is the `verify` keyword argument of `conans.tools.download`. -/
inductive Event where
  | download (url fname : String) (verify : Bool)
  | unzip (fname : String)
  | unlink (fname : String)
  | copy (srcPath dstPath : String)
deriving DecidableEq, Repr

/-- Failures of the source step: the download found nothing at the URL, or
the downloaded file was not a valid zip archive. -/
inductive StepError where
  | fetchError
  | extractError
deriving DecidableEq, Repr

/-- Result of running a step: the filesystem afterwards, the error it
stopped with (if any), and the trace of effects it performed. -/
structure StepResult where
  fs : FS
  err : Option StepError
  events : List Event
deriving DecidableEq, Repr

/-- `conanfile.py` line 15: `zip_name = "%s.zip" % self.version`. -/
def zipName (version : String) : String :=
  version ++ ".zip"

/-- `conanfile.py` line 16: the URL `"%s/archive/%s" % (self.url, zip_name)`
passed to `download`. -/
def archiveUrl (url version : String) : String :=
  url ++ "/archive/" ++ zipName version

/-- `conanfile.py` line 21:
`include_folder = "%s-%s/src" % (self.name, self.version)`. -/
def include_folder (name version : String) : String :=
  name ++ "-" ++ version ++ "/src"

/-- Fuel-driven fnmatch-style glob matching on character lists: `*` matches
any (possibly empty) sequence of characters, every other pattern character
matches itself.  The fuel only bounds recursion depth; `globMatch` supplies
enough of it for the answer to be exact. -/
def globMatchFuel : Nat → List Char → List Char → Bool
  | 0, _, _ => false
  | _ + 1, [], s => s.isEmpty
  | f + 1, '*' :: ps, [] => globMatchFuel f ps []
  | f + 1, '*' :: ps, c :: cs =>
      globMatchFuel f ps (c :: cs) || globMatchFuel f ('*' :: ps) cs
  | _ + 1, _ :: _, [] => false
  | f + 1, p :: ps, c :: cs => p == c && globMatchFuel f ps cs

/-- Glob matching on strings, as Python's `fnmatch` used by Conan's
`self.copy`: `*` also matches across `/`. -/
def globMatch (pat s : String) : Bool :=
  globMatchFuel (pat.length + s.length + 1) pat.data s.data

/-- Does string `p` start with `pfx`?  (Character-list model of
`str.startswith`, kept kernel-computable.) -/
def strStartsWith (p pfx : String) : Bool :=
  pfx.data.isPrefixOf p.data

/-- Drop the first `n` characters of `p`. -/
def strDrop (p : String) (n : Nat) : String :=
  String.mk (p.data.drop n)

/-- `conans.tools.unzip(fname)`: read the file `fname` and extract every
entry of the archive into the working directory (overwriting existing
files); `none` when the file is missing or not a valid zip. -/
def unzipFile (fs : FS) (fname : String) : Option FS :=
  match fsGet fs fname with
  | some (.zip entries) =>
      some (entries.foldl (fun a e => fsSet a e.1 (.text e.2)) fs)
  | _ => none

/-- The `source()` method of `TranswarpConan` (lines 14-18), parametrised
by the recipe attributes `name`, `version`, `url` and by the remote host
`remote` (what each URL serves).  It downloads the archive with
`verify=False`, unzips it, and unlinks it, in that order; a failing
download or extraction aborts the step there. -/
def sourceStep (version url : String) (remote : String → Option FileData)
    (fs : FS) : StepResult :=
  let zip_name := zipName version
  match remote (archiveUrl url version) with
  | none =>
      ⟨fs, some .fetchError, [.download (archiveUrl url version) zip_name false]⟩
  | some d =>
      let fs1 := fsSet fs zip_name d
      match unzipFile fs1 zip_name with
      | none =>
          ⟨fs1, some .extractError,
            [.download (archiveUrl url version) zip_name false, .unzip zip_name]⟩
      | some fs2 =>
          ⟨fsDel fs2 zip_name, none,
            [.download (archiveUrl url version) zip_name false, .unzip zip_name,
              .unlink zip_name]⟩

/-- The files `self.copy("*.h", dst="include", src=include_folder)` selects:
every file under `include_folder` whose path relative to it matches `*.h`. -/
def pkgMatched (name version : String) (fs : FS) : FS :=
  let pfx := include_folder name version ++ "/"
  fs.filter (fun e =>
    strStartsWith e.1 pfx && globMatch "*.h" (strDrop e.1 pfx.length))

/-- The copies `self.copy` performs: `(source path, destination path,
data)`, with the path relative to `include_folder` preserved under the
`include` destination. -/
def pkgCopies (name version : String) (fs : FS) :
    List (String × String × FileData) :=
  let pfx := include_folder name version ++ "/"
  (pkgMatched name version fs).map
    (fun e => (e.1, "include/" ++ strDrop e.1 pfx.length, e.2))

/-- The `package()` method of `TranswarpConan` (lines 20-22): copy every
`*.h` file under `include_folder` into `include`.  It has no failure path:
when nothing matches (or the subdirectory is absent) it simply copies
nothing. -/
def packageStep (name version : String) (fs : FS) : StepResult :=
  let cs := pkgCopies name version fs
  ⟨cs.foldl (fun a c => fsSet a c.2.1 c.2.2) fs, none,
    cs.map (fun c => Event.copy c.1 c.2.1)⟩

/-- Conan runs the `source()` hook before the `package()` hook; the
complete fetch-stage step is their composition, with traces concatenated.
A source failure aborts the run. -/
def fetchStep (name version url : String) (remote : String → Option FileData)
    (fs : FS) : StepResult :=
  let r := sourceStep version url remote fs
  match r.err with
  | some _ => r
  | none =>
      let p := packageStep name version r.fs
      ⟨p.fs, p.err, r.events ++ p.events⟩

namespace TranswarpConan

/-- `name = "transwarp"` (line 6). -/
def name : String := "transwarp"

/-- `version = "1.2.1"` (line 7). -/
def version : String := "1.2.1"

/-- `url = "https://github.com/bloomen/transwarp"` (line 9). -/
def url : String := "https://github.com/bloomen/transwarp"

end TranswarpConan

/-- Modelled from the spec: the repository's second, near-identical recipe
(version `2.2.2`), which is not among the provided source files; per the
spec its source subdirectory is the template substitution
`{name}-{version}/include`. -/
def include_folder_v222 (name version : String) : String :=
  name ++ "-" ++ version ++ "/include"

/-- The paths of the destination files staged under `include/`. -/
def destPaths (fs : FS) : List String :=
  (fs.filter (fun e => strStartsWith e.1 "include/")).map (fun e => e.1)

/-- A remote host serving, at the recipe's archive URL, a well-formed zip
of the tagged tree with headers `a.h`, `b.h` and a non-header `c.txt`
under `transwarp-1.2.1/src`. -/
def goodRemote : String → Option FileData := fun u =>
  if u = archiveUrl TranswarpConan.url TranswarpConan.version then
    some (.zip [("transwarp-1.2.1/src/a.h", "A"),
                ("transwarp-1.2.1/src/b.h", "B"),
                ("transwarp-1.2.1/src/c.txt", "C")])
  else none

/-- A remote host serving bytes that are not a valid zip archive at the
recipe's archive URL. -/
def badRemote : String → Option FileData := fun u =>
  if u = archiveUrl TranswarpConan.url TranswarpConan.version then some .corrupt
  else none

/-- A working directory holding the extracted fixture tree: `a.h`, `b.h`,
`c.txt` under the resolved subdirectory `transwarp-1.2.1/src`. -/
def fixtureFS : FS :=
  [("transwarp-1.2.1/src/a.h", .text "A"),
   ("transwarp-1.2.1/src/b.h", .text "B"),
   ("transwarp-1.2.1/src/c.txt", .text "C")]

/-- A working directory whose resolved subdirectory holds no file matching
`*.h`. -/
def noMatchFS : FS :=
  [("transwarp-1.2.1/src/c.txt", .text "C")]

/-- A working directory missing the expected `transwarp-1.2.1/src`
subdirectory altogether. -/
def noSubdirFS : FS :=
  [("README.md", .text "readme")]

/-- Is an event's transport-layer certificate verification turned off?
Only download events carry a `verify` flag; other events satisfy this
vacuously. -/
def verifyOff : Event → Bool
  | .download _ _ b => !b
  | _ => true

set_option maxRecDepth 100000

theorem fsGet_fsSet_self (fs : FS) (p : String) (d : FileData) :
    fsGet (fsSet fs p d) p = some d := by
  simp [fsGet, fsSet, List.find?_cons_of_pos]

theorem fsGet_fsSet_ne (fs : FS) (p q : String) (d : FileData) (h : q ≠ p) :
    fsGet (fsSet fs p d) q = fsGet fs q := by
  unfold fsGet fsSet
  rw [List.find?_cons_of_neg]
  · rw [List.find?_filter]
    have hpred : (fun a : String × FileData =>
        decide ((a.1 != p) = true ∧ (a.1 == q) = true)) =
          fun e : String × FileData => e.1 == q := by
      funext a
      by_cases hq : a.1 = q
      · subst hq
        simp [h, bne]
      · simp [hq]
    rw [hpred]
  · simp
    exact fun hh => h hh.symm

theorem fsGet_fsDel_self (fs : FS) (p : String) :
    fsGet (fsDel fs p) p = none := by
  have hf : List.find? (fun e => e.1 == p) (fs.filter (fun e => e.1 != p)) = none := by
    rw [List.find?_eq_none]
    intro x hx
    have hx2 := (List.mem_filter.mp hx).2
    simpa [bne] using hx2
  simp [fsGet, fsDel, hf]

theorem fsGet_foldl_fsSet_of_not_mem (l : List (String × String × FileData))
    (fs : FS) (p : String) (h : p ∉ l.map (fun c => c.2.1)) :
    fsGet (l.foldl (fun a c => fsSet a c.2.1 c.2.2) fs) p = fsGet fs p := by
  induction l generalizing fs with
  | nil => rfl
  | cons c l ih =>
    simp only [List.map_cons, List.mem_cons] at h
    push_neg at h
    rw [List.foldl_cons, ih _ h.2, fsGet_fsSet_ne _ _ _ _ h.1]

theorem sourceStep_events_head (version url : String)
    (remote : String → Option FileData) (fs : FS) :
    (sourceStep version url remote fs).events.head? =
      some (.download (archiveUrl url version) (zipName version) false) := by
  rcases hr : remote (archiveUrl url version) with _ | d
  · simp [sourceStep, hr]
  · rcases hz : unzipFile (fsSet fs (zipName version) d) (zipName version) with _ | fs2
    · simp [sourceStep, hr, hz]
    · simp [sourceStep, hr, hz]

/-- C1: for every recipe descriptor, the URL the source step downloads is
the base url joined with `/archive/{version}.zip`, the local file name is
`{version}.zip`, and for this recipe the URL is
`https://github.com/bloomen/transwarp/archive/1.2.1.zip`. -/
theorem source_archive_url_and_local_name :
    (∀ version url : String,
      archiveUrl url version = url ++ "/archive/" ++ version ++ ".zip") ∧
    archiveUrl TranswarpConan.url TranswarpConan.version =
      "https://github.com/bloomen/transwarp/archive/1.2.1.zip" ∧
    (∀ (version url : String) (remote : String → Option FileData) (fs : FS),
      (sourceStep version url remote fs).events.head? =
        some (.download (url ++ "/archive/" ++ version ++ ".zip")
          (version ++ ".zip") false)) ∧
    (∀ (remote : String → Option FileData) (fs : FS),
      (sourceStep TranswarpConan.version TranswarpConan.url remote fs).events.head? =
        some (.download "https://github.com/bloomen/transwarp/archive/1.2.1.zip"
          "1.2.1.zip" false)) := by
  have hurl : ∀ version url : String,
      archiveUrl url version = url ++ "/archive/" ++ version ++ ".zip" := by
    intro version url
    unfold archiveUrl zipName
    simp [String.append_assoc]
  refine ⟨hurl, by decide, ?_, ?_⟩
  · intro version url remote fs
    rw [sourceStep_events_head]
    rw [hurl]
    rfl
  · intro remote fs
    rw [sourceStep_events_head]
    rfl

theorem include_folder_getLast (n v : String) :
    (include_folder n v).data.getLast? = some 'c' := by
  have hd : (include_folder n v).data = (n ++ "-" ++ v).data ++ "/src".data := rfl
  rw [hd, List.getLast?_append_of_ne_nil]
  · decide
  · decide

theorem include_folder_v222_getLast (n v : String) :
    (include_folder_v222 n v).data.getLast? = some 'e' := by
  have hd : (include_folder_v222 n v).data =
      (n ++ "-" ++ v).data ++ "/include".data := rfl
  rw [hd, List.getLast?_append_of_ne_nil]
  · decide
  · decide

/-- C2: the recipe in `src/` computes the source subdirectory
`{name}-{version}/src` (so `transwarp-1.2.1/src` for this recipe), the
spec-modelled 2.2.2 recipe computes `{name}-{version}/include`, and the
two mappings are distinct at every `(name, version)`. -/
theorem include_folder_template_substitution :
    (∀ n : String, include_folder n "1.2.1" = n ++ "-1.2.1/src") ∧
    (∀ n : String, include_folder_v222 n "2.2.2" = n ++ "-2.2.2/include") ∧
    (∀ n v : String, include_folder n v ≠ include_folder_v222 n v) ∧
    include_folder TranswarpConan.name TranswarpConan.version =
      "transwarp-1.2.1/src" := by
  have hlit1 : "-" ++ ("1.2.1" ++ "/src") = "-1.2.1/src" := by decide
  have hlit2 : "-" ++ ("2.2.2" ++ "/include") = "-2.2.2/include" := by decide
  refine ⟨?_, ?_, ?_, by decide⟩
  · intro n
    unfold include_folder
    simp [String.append_assoc, hlit1]
  · intro n
    unfold include_folder_v222
    simp [String.append_assoc, hlit2]
  · intro n v h
    have hc := include_folder_getLast n v
    rw [h, include_folder_v222_getLast n v] at hc
    exact absurd (Option.some.inj hc) (by decide)

/-- C3 counterexample: when the remote serves bytes that are not a valid
zip, the source step stops with an extraction error and the downloaded
archive `1.2.1.zip` is still present in the working directory — cleanup is
not performed on the extraction-failure path. -/
theorem source_corrupt_archive_left_behind :
    (sourceStep TranswarpConan.version TranswarpConan.url badRemote []).err =
      some .extractError ∧
    fsHas (sourceStep TranswarpConan.version TranswarpConan.url badRemote []).fs
      "1.2.1.zip" = true := by decide

/-- C3 amended: after every source step that succeeds (extraction
included), the temporary archive `{version}.zip` no longer exists in the
working directory; when extraction fails the archive is left behind. -/
theorem source_archive_absent_after_success (version url : String)
    (remote : String → Option FileData) (fs : FS)
    (h : (sourceStep version url remote fs).err = none) :
    fsHas (sourceStep version url remote fs).fs (zipName version) = false := by
  rcases hr : remote (archiveUrl url version) with _ | d
  · simp [sourceStep, hr] at h
  · rcases hz : unzipFile (fsSet fs (zipName version) d) (zipName version) with _ | fs2
    · simp [sourceStep, hr, hz] at h
    · simp [sourceStep, hr, hz, fsHas, fsGet_fsDel_self]

theorem source_archive_absent_after_success_holds :
    fsHas (sourceStep TranswarpConan.version TranswarpConan.url goodRemote []).fs
      (zipName TranswarpConan.version) = false :=
  source_archive_absent_after_success TranswarpConan.version TranswarpConan.url
    goodRemote [] (by decide)

/-- C4: every download the source step performs has transport-layer
certificate verification disabled (`verify=False`), and the step does
perform the archive download. -/
theorem download_verification_disabled :
    ∀ (version url : String) (remote : String → Option FileData) (fs : FS),
      ((sourceStep version url remote fs).events.all verifyOff) = true ∧
      Event.download (archiveUrl url version) (zipName version) false ∈
        (sourceStep version url remote fs).events := by
  intro version url remote fs
  rcases hr : remote (archiveUrl url version) with _ | d
  · exact ⟨by simp [sourceStep, hr, verifyOff], by simp [sourceStep, hr]⟩
  · rcases hz : unzipFile (fsSet fs (zipName version) d) (zipName version) with _ | fs2
    · exact ⟨by simp [sourceStep, hr, hz, verifyOff], by simp [sourceStep, hr, hz]⟩
    · exact ⟨by simp [sourceStep, hr, hz, verifyOff], by simp [sourceStep, hr, hz]⟩

/-- C5: on the fixture tree holding `a.h`, `b.h`, `c.txt` under the
resolved subdirectory, the package step stages exactly `a.h` and `b.h`
under `include` (filenames and contents preserved) and excludes `c.txt`. -/
theorem package_copies_exactly_matching :
    destPaths (packageStep TranswarpConan.name TranswarpConan.version fixtureFS).fs =
      ["include/b.h", "include/a.h"] ∧
    fsGet (packageStep TranswarpConan.name TranswarpConan.version fixtureFS).fs
      "include/a.h" = some (.text "A") ∧
    fsGet (packageStep TranswarpConan.name TranswarpConan.version fixtureFS).fs
      "include/b.h" = some (.text "B") ∧
    fsGet (packageStep TranswarpConan.name TranswarpConan.version fixtureFS).fs
      "include/c.txt" = none := by decide

theorem packageStep_of_pkgMatched_nil (name version : String) (fs : FS)
    (h : pkgMatched name version fs = []) :
    packageStep name version fs = ⟨fs, none, []⟩ := by
  unfold packageStep pkgCopies
  rw [h]
  rfl

/-- C6 counterexample: on a tree whose resolved subdirectory holds only
`c.txt` (no `*.h` match), the package step completes without any error —
there is no `NoFilesMatchedError` in the recipe — and stages nothing. -/
theorem package_no_match_completes :
    packageStep TranswarpConan.name TranswarpConan.version noMatchFS =
      ⟨noMatchFS, none, []⟩ := by decide

/-- C6 amended: when no file in the resolved subdirectory matches the
pattern, the package step completes successfully with an empty staging
result, leaving the filesystem unchanged (the recipe performs no
zero-match check). -/
theorem package_no_match_noop (name version : String) (fs : FS)
    (h : pkgMatched name version fs = []) :
    packageStep name version fs = ⟨fs, none, []⟩ ∧
    destPaths (packageStep name version fs).fs = destPaths fs := by
  have hp := packageStep_of_pkgMatched_nil name version fs h
  exact ⟨hp, by rw [hp]⟩

theorem package_no_match_noop_holds :
    packageStep TranswarpConan.name TranswarpConan.version noMatchFS =
      ⟨noMatchFS, none, []⟩ ∧
    destPaths (packageStep TranswarpConan.name TranswarpConan.version noMatchFS).fs =
      destPaths noMatchFS :=
  package_no_match_noop TranswarpConan.name TranswarpConan.version noMatchFS
    (by decide)

/-- C7 counterexample: on a tree missing the expected subdirectory
entirely, the package step completes without any error — there is no
`LayoutMismatchError` in the recipe — and stages nothing (the destination
is indeed left unmodified). -/
theorem package_missing_subdir_completes :
    packageStep TranswarpConan.name TranswarpConan.version noSubdirFS =
      ⟨noSubdirFS, none, []⟩ := by decide

/-- C7 amended: when no file lies under the expected subdirectory
`{name}-{version}/src`, the package step completes successfully, copying
nothing and leaving the destination unmodified (no error is raised). -/
theorem package_missing_subdir_noop (name version : String) (fs : FS)
    (h : fs.all (fun e =>
      !(strStartsWith e.1 (include_folder name version ++ "/"))) = true) :
    packageStep name version fs = ⟨fs, none, []⟩ ∧
    destPaths (packageStep name version fs).fs = destPaths fs := by
  have hm : pkgMatched name version fs = [] := by
    unfold pkgMatched
    rw [List.filter_eq_nil_iff]
    intro a ha
    have hna := List.all_eq_true.mp h a ha
    simp only [Bool.not_eq_eq_eq_not, Bool.not_true] at hna
    simp [hna]
  have hp := packageStep_of_pkgMatched_nil name version fs hm
  exact ⟨hp, by rw [hp]⟩

theorem package_missing_subdir_noop_holds :
    packageStep TranswarpConan.name TranswarpConan.version noSubdirFS =
      ⟨noSubdirFS, none, []⟩ ∧
    destPaths (packageStep TranswarpConan.name TranswarpConan.version noSubdirFS).fs =
      destPaths noSubdirFS :=
  package_missing_subdir_noop TranswarpConan.name TranswarpConan.version noSubdirFS
    (by decide)

/-- C8 counterexample: against the fixture remote, the complete fetch-stage
run performs download, unzip, unlink, and only then the copies — the
archive is unlinked at trace position 2, before the first copy at
position 3, so the deletion does not come after the copies. -/
theorem fetch_unlink_precedes_copies :
    (fetchStep TranswarpConan.name TranswarpConan.version TranswarpConan.url
        goodRemote []).events =
      [.download "https://github.com/bloomen/transwarp/archive/1.2.1.zip"
          "1.2.1.zip" false,
        .unzip "1.2.1.zip",
        .unlink "1.2.1.zip",
        .copy "transwarp-1.2.1/src/b.h" "include/b.h",
        .copy "transwarp-1.2.1/src/a.h" "include/a.h"] ∧
    (fetchStep TranswarpConan.name TranswarpConan.version TranswarpConan.url
        goodRemote []).events[2]? = some (.unlink "1.2.1.zip") ∧
    (fetchStep TranswarpConan.name TranswarpConan.version TranswarpConan.url
        goodRemote []).events[3]? =
      some (.copy "transwarp-1.2.1/src/b.h" "include/b.h") := by decide

/-- C8 amended: the fetch-stage run performs its effects in the order
download, extract, delete, copy — the archive is unlinked at the end of the
source hook, before the package hook performs its copies. -/
theorem fetch_event_order (name version url : String)
    (remote : String → Option FileData) (fs : FS)
    (h : (sourceStep version url remote fs).err = none) :
    (fetchStep name version url remote fs).events =
      [.download (archiveUrl url version) (zipName version) false,
        .unzip (zipName version), .unlink (zipName version)] ++
      (packageStep name version (sourceStep version url remote fs).fs).events := by
  rcases hr : remote (archiveUrl url version) with _ | d
  · simp [sourceStep, hr] at h
  · rcases hz : unzipFile (fsSet fs (zipName version) d) (zipName version) with _ | fs2
    · simp [sourceStep, hr, hz] at h
    · simp [fetchStep, sourceStep, hr, hz]

theorem fetch_event_order_holds :
    (fetchStep TranswarpConan.name TranswarpConan.version TranswarpConan.url
        goodRemote []).events =
      [.download (archiveUrl TranswarpConan.url TranswarpConan.version)
          (zipName TranswarpConan.version) false,
        .unzip (zipName TranswarpConan.version),
        .unlink (zipName TranswarpConan.version)] ++
      (packageStep TranswarpConan.name TranswarpConan.version
        (sourceStep TranswarpConan.version TranswarpConan.url goodRemote []).fs).events :=
  fetch_event_order TranswarpConan.name TranswarpConan.version TranswarpConan.url
    goodRemote [] (by decide)

/-- C9: running the complete fetch-stage step twice against the fixture
remote yields exactly the same result as running it once — same files,
no duplicates, no error — and the staged set is `a.h`, `b.h`. -/
theorem fetch_idempotent_on_fixture :
    fetchStep TranswarpConan.name TranswarpConan.version TranswarpConan.url
        goodRemote
        (fetchStep TranswarpConan.name TranswarpConan.version TranswarpConan.url
          goodRemote []).fs =
      fetchStep TranswarpConan.name TranswarpConan.version TranswarpConan.url
        goodRemote [] ∧
    (fetchStep TranswarpConan.name TranswarpConan.version TranswarpConan.url
        goodRemote []).err = none ∧
    destPaths (fetchStep TranswarpConan.name TranswarpConan.version
        TranswarpConan.url goodRemote []).fs =
      ["include/a.h", "include/b.h"] := by decide

theorem strStartsWith_append (a b : String) : strStartsWith (a ++ b) a = true := by
  unfold strStartsWith
  rw [List.isPrefixOf_iff_prefix]
  have hd : (a ++ b).data = a.data ++ b.data := rfl
  rw [hd]
  exact List.prefix_append _ _

/-- C10: the package step's only writes are its copies into the `include`
destination: every path outside the copied set is untouched, and every
copied destination path lies under `include/`. -/
theorem package_frame (name version : String) (fs : FS) :
    (∀ p : String, p ∉ (pkgCopies name version fs).map (fun c => c.2.1) →
      fsGet (packageStep name version fs).fs p = fsGet fs p) ∧
    (∀ q ∈ (pkgCopies name version fs).map (fun c => c.2.1),
      strStartsWith q "include/" = true) := by
  constructor
  · intro p hp
    have hfs : (packageStep name version fs).fs =
        (pkgCopies name version fs).foldl (fun a c => fsSet a c.2.1 c.2.2) fs := rfl
    rw [hfs]
    exact fsGet_foldl_fsSet_of_not_mem _ _ _ hp
  · intro q hq
    rcases List.mem_map.mp hq with ⟨c, hc, rfl⟩
    rcases List.mem_map.mp hc with ⟨e, _, rfl⟩
    exact strStartsWith_append "include/" _

theorem package_frame_holds :
    fsGet (packageStep TranswarpConan.name TranswarpConan.version fixtureFS).fs
        "transwarp-1.2.1/src/c.txt" =
      fsGet fixtureFS "transwarp-1.2.1/src/c.txt" :=
  (package_frame TranswarpConan.name TranswarpConan.version fixtureFS).1
    "transwarp-1.2.1/src/c.txt" (by decide)
